import Mathlib

/-!
Verification development for the stress-config DSL parser
(`src/main.go` chunk splitter / statement classifier and
`src/stressql/parser.go` tokenizer / recursive-descent parser).

The Go code is shallowly embedded: input text is `List Char`, the
single-slot rune pushback is realized by never consuming the pushed-back
character, and the parser's one-token buffer is an explicit field of the
parser state.  The tokenizer's end-of-input sentinel is `rune(1)`
(`parser.go`), the chunk splitter's is `rune(0)` (`main.go`); both are
modelled exactly, including their behaviour when the sentinel character
occurs literally in the input.  Parser loops that the Go source runs
without a bound (the QUERY body loop and the bracketed-template loop spin
forever once the scanner is at end of input) are modelled with explicit
fuel: `none` is the out-of-fuel / divergence marker, and canonical fuel
`length + 2` is ample for every terminating run because every loop
iteration of a terminating run consumes at least one input character.
-/

set_option maxHeartbeats 1000000

namespace StressConfig

/-! ## Tokenizer (`src/stressql/parser.go`) -/

/-- Token kinds, mirroring the `Token` constants of `parser.go`. -/
inductive Tok where
  | ILLEGAL
  | EOF
  | WS
  | IDENT
  | NUMBER
  | DURATIONVAL
  | STRING
  | BADSTRING
  | TEMPLATEVAR
  | COMMA
  | LPAREN
  | RPAREN
  | LBRACKET
  | RBRACKET
  | PIPE
  | PERIOD
  | SET
  | USE
  | QUERY
  | INSERT
  | GO
  | DO
  | WAIT
  | STR
  | INT
  | FLOAT
  | EXEC
  deriving DecidableEq, Repr

/-- `var eof = rune(1)` in `parser.go`: the sentinel returned by `read()`
at end of input. -/
def eofRune1 : Char := Char.ofNat 1

/-- `isWhitespace` of `parser.go`. -/
def isWhitespace (c : Char) : Bool := c = ' ' || c = '\t' || c = '\n'

/-- `isDigit` of `parser.go`. -/
def isDigit (c : Char) : Bool := '0' ≤ c && c ≤ '9'

/-- `isLetter` of `parser.go`. -/
def isLetter (c : Char) : Bool :=
  ('a' ≤ c && c ≤ 'z') || ('A' ≤ c && c ≤ 'Z')

/-- The character class continuing an identifier in `scanIdent`. -/
def isIdentChar (c : Char) : Bool :=
  isLetter c || isDigit c || c = '_' || c = ':' || c = '=' || c = '-'

/-- Loop body of `scanWhitespace`: consume whitespace characters until a
non-whitespace character (pushed back) or the eof sentinel (consumed). -/
def wsLoop : List Char → List Char × List Char
  | [] => ([], [])
  | c :: rest =>
    if c = eofRune1 then ([], rest)
    else if ¬ isWhitespace c then ([], c :: rest)
    else
      let (a, r) := wsLoop rest
      (c :: a, r)

/-- Loop body of `scanIdent`: consume identifier characters until a
non-matching character (pushed back) or the eof sentinel (consumed). -/
def identLoop : List Char → List Char × List Char
  | [] => ([], [])
  | c :: rest =>
    if c = eofRune1 then ([], rest)
    else if ¬ isIdentChar c then ([], c :: rest)
    else
      let (a, r) := identLoop rest
      (c :: a, r)

/-- Loop body of `scanNumber`: digits, a terminating `n`/`s`/`m` is
consumed and turns the token into a duration value (the `Bool`). -/
def numLoop : List Char → List Char × List Char × Bool
  | [] => ([], [], false)
  | c :: rest =>
    if c = eofRune1 then ([], rest, false)
    else if c = 'n' ∨ c = 's' ∨ c = 'm' then ([c], rest, true)
    else if ¬ isDigit c then ([], c :: rest, false)
    else
      let (a, r, d) := numLoop rest
      (c :: a, r, d)

/-- The case-insensitive keyword table of `scanIdent`: the scanned lexeme
is uppercased for the comparison only. -/
def keywordOf (u : List Char) : Option Tok :=
  if u = ['S', 'E', 'T'] then some .SET
  else if u = ['U', 'S', 'E'] then some .USE
  else if u = ['Q', 'U', 'E', 'R', 'Y'] then some .QUERY
  else if u = ['I', 'N', 'S', 'E', 'R', 'T'] then some .INSERT
  else if u = ['E', 'X', 'E', 'C'] then some .EXEC
  else if u = ['W', 'A', 'I', 'T'] then some .WAIT
  else if u = ['G', 'O'] then some .GO
  else if u = ['D', 'O'] then some .DO
  else if u = ['S', 'T', 'R'] then some .STR
  else if u = ['F', 'L', 'O', 'A', 'T'] then some .FLOAT
  else if u = ['I', 'N', 'T'] then some .INT
  else none

/-- Keyword classification at the end of `scanIdent`: an uppercased copy
is matched against the table while the returned lexeme keeps its case. -/
def identFinish (lit : List Char) : Tok :=
  match keywordOf (lit.map Char.toUpper) with
  | some t => t
  | none => .IDENT

/-- One call of `Scanner.Scan` of `parser.go`: returns the token kind,
its lexeme and the unconsumed remainder of the input. -/
def scanStep : List Char → Tok × List Char × List Char
  | [] => (.EOF, [], [])
  | c :: rest =>
    if isWhitespace c then
      let (a, r) := wsLoop rest
      (.WS, c :: a, r)
    else if isLetter c then
      let (a, r) := identLoop rest
      (identFinish (c :: a), c :: a, r)
    else if isDigit c then
      let (a, r, d) := numLoop rest
      (if d then .DURATIONVAL else .NUMBER, c :: a, r)
    else if c = eofRune1 then (.EOF, [], rest)
    else if c = '"' then
      let (a, r) := identLoop rest
      (identFinish (c :: a), c :: a, r)
    else if c = '%' then
      match rest with
      | [] => (.TEMPLATEVAR, [c, eofRune1], [])
      | d :: r => (.TEMPLATEVAR, [c, d], r)
    else if c = ',' then (.COMMA, [c], rest)
    else if c = '.' then (.PERIOD, [c], rest)
    else if c = '(' then (.LPAREN, [c], rest)
    else if c = ')' then (.RPAREN, [c], rest)
    else if c = '[' then (.LBRACKET, [c], rest)
    else if c = ']' then (.RBRACKET, [c], rest)
    else if c = '|' then (.PIPE, [c], rest)
    else (.ILLEGAL, [c], rest)

/-- Repeated `Scan` until the end-of-input token, with fuel. -/
def tokenizeF : Nat → List Char → List (Tok × List Char)
  | 0, _ => []
  | fuel + 1, l =>
    let (t, lit, r) := scanStep l
    if t = .EOF then [] else (t, lit) :: tokenizeF fuel r

/-- The token stream of one chunk (`length + 1` scans always reach EOF
because every non-EOF scan consumes at least one character). -/
def tokenize (l : List Char) : List (Tok × List Char) :=
  tokenizeF (l.length + 1) l

/-! ## Parser state (`Parser` struct with its one-token buffer) -/

/-- The `Parser` of `parser.go`: the scanner's unconsumed input plus the
one-token buffer (`buf.tok`, `buf.lit`, `buf.n`). -/
structure PState where
  rest : List Char
  lastTok : Tok
  lastLit : List Char
  buffered : Bool
  deriving DecidableEq, Repr

/-- A freshly constructed parser over a chunk's text (Go zero value of
the buffer: `ILLEGAL`, empty literal, `n = 0`). -/
def initState (l : List Char) : PState :=
  { rest := l, lastTok := .ILLEGAL, lastLit := [], buffered := false }

/-- `Parser.scan`: return the buffered token if present, otherwise pull
one token from the scanner and remember it. -/
def pscan (st : PState) : Tok × List Char × PState :=
  if st.buffered then
    (st.lastTok, st.lastLit, { st with buffered := false })
  else
    let (t, lit, r) := scanStep st.rest
    (t, lit, { rest := r, lastTok := t, lastLit := lit, buffered := false })

/-- `Parser.unscan`: push the previously read token back (`buf.n = 1`). -/
def punscan (st : PState) : PState := { st with buffered := true }

/-- `Parser.scanIgnoreWhitespace`: skip exactly one whitespace token. -/
def scanIW (st : PState) : Tok × List Char × PState :=
  let (t, lit, st') := pscan st
  if t = .WS then pscan st' else (t, lit, st')

/-! ## AST (`parser.go` statement structs) -/

/-- `Function` struct: a generator directive `TYPE name(argument) count`. -/
structure Function where
  type : List Char
  fn : List Char
  argument : List Char
  count : List Char
  deriving DecidableEq, Repr

/-- `Timestamp` struct; `Jitter` has no producing grammar rule. -/
structure Timestamp where
  count : List Char
  duration : List Char
  jitter : Bool
  deriving DecidableEq, Repr

/-- `Template` struct: contents of one bracketed `[...]` span. -/
structure Template where
  tags : List (List Char)
  functions : List Function
  deriving DecidableEq, Repr

/-- `InsertStatement` struct. -/
structure InsertStatement where
  name : List Char := []
  templateString : List Char := []
  templates : List Template := []
  timestamp : Option Timestamp := none
  deriving DecidableEq, Repr

/-- `QueryStatement` struct. -/
structure QueryStatement where
  name : List Char := []
  templateString : List Char := []
  args : List (List Char) := []
  count : List Char := []
  deriving DecidableEq, Repr

/-- `ExecStatement` struct (`Args` is declared but never assigned). -/
structure ExecStatement where
  script : List Char := []
  args : List (List Char) := []
  deriving DecidableEq, Repr

/-- `SetStatement` struct. -/
structure SetStatement where
  var : List Char := []
  value : List Char := []
  deriving DecidableEq, Repr

/-- The closed `Statement` variant set.  `GoStatement` embeds a
`Statement` interface value that may remain nil: `Option Stmt`. -/
inductive Stmt where
  | influxql (value : List Char)
  | insert (s : InsertStatement)
  | query (s : QueryStatement)
  | exec (s : ExecStatement)
  | set (s : SetStatement)
  | wait
  | go (inner : Option Stmt)
  deriving Repr

/-- Parse errors, one constructor per `fmt.Errorf` site of `parser.go`.
`foundExpected lit what` is `found %q, expected <what>`; `goWrap` is the
`found %q` rewrapping in `ParseGoStatement`. -/
inductive PError where
  | foundExpected (lit : List Char) (expected : String)
  | unknownToken (lit : List Char)
  | templateError
  | timeError
  | functionError
  | lparenError
  | numberError
  | rparenError
  | durationError
  | goWrap (e : PError)
  deriving DecidableEq, Repr

/-! ## Recursive-descent parse functions (`parser.go`)

`Option (Except PError _)`: `none` marks an execution whose Go original
never returns (fuel exhausted), `some (.error e)` a parse error,
`some (.ok (a, st))` success with the parser state after the parse. -/

/-- `ParseTimestamp`: `NUMBER` then `DURATIONVAL` (loop-free). -/
def ParseTimestamp (st : PState) : Except PError (Timestamp × PState) :=
  let (t1, l1, st1) := scanIW st
  if t1 ≠ .NUMBER then .error .numberError
  else
    let (t2, l2, st2) := scanIW st1
    if t2 ≠ .DURATIONVAL then .error .durationError
    else .ok ({ count := l1, duration := l2, jitter := false }, st2)

/-- `ParseFunction`: the type and function-name tokens are stored without
any kind check, then `( NUMBER ) NUMBER` (loop-free). -/
def ParseFunction (st : PState) : Except PError (Function × PState) :=
  let (_, l1, st1) := scanIW st
  let (_, l2, st2) := scanIW st1
  let (t3, _, st3) := scanIW st2
  if t3 ≠ .LPAREN then .error .lparenError
  else
    let (t4, l4, st4) := scanIW st3
    if t4 ≠ .NUMBER then .error .numberError
    else
      let (t5, _, st5) := scanIW st4
      if t5 ≠ .RPAREN then .error .rparenError
      else
        let (t6, l6, st6) := scanIW st5
        if t6 ≠ .NUMBER then .error .numberError
        else .ok ({ type := l1, fn := l2, argument := l4, count := l6 }, st6)

/-- The loop of `ParseTemplate`: tags, function sub-parses, `]` ends;
any other token kind — including end of input — is silently skipped, so
the Go loop spins forever at EOF (out of fuel here). -/
def templateLoop : Nat → Template → PState → Option (Except PError (Template × PState))
  | 0, _, _ => none
  | fuel + 1, tmplt, st =>
    let (t, lit, st1) := scanIW st
    if t = .IDENT then
      templateLoop fuel { tmplt with tags := tmplt.tags ++ [lit] } st1
    else if t = .INT ∨ t = .FLOAT ∨ t = .STR then
      match ParseFunction (punscan st1) with
      | .error _ => some (.error .functionError)
      | .ok (fn, st2) =>
        templateLoop fuel { tmplt with functions := tmplt.functions ++ [fn] } st2
    else if t = .RBRACKET then some (.ok (tmplt, st1))
    else templateLoop fuel tmplt st1

/-- `ParseTemplate` (the leading `[` was consumed by the caller). -/
def ParseTemplate (fuel : Nat) (st : PState) : Option (Except PError (Template × PState)) :=
  templateLoop fuel { tags := [], functions := [] } st

/-- The field-list loop of `ParseInsertStatement`.  `prev` starts as the
Go zero value `ILLEGAL` and is updated only in the `IDENT`/`COMMA`
branch. -/
def insertLoop : Nat → InsertStatement → Tok → PState →
    Option (Except PError (InsertStatement × PState))
  | 0, _, _, _ => none
  | fuel + 1, stmt, prev, st =>
    let (t, lit, st1) := pscan st
    if t = .WS then
      if prev = .COMMA then insertLoop fuel stmt prev st1
      else insertLoop fuel { stmt with templateString := stmt.templateString ++ [' '] } prev st1
    else if t = .LBRACKET then
      let stmt1 := { stmt with templateString := stmt.templateString ++ ['%', 'v'] }
      match ParseTemplate fuel st1 with
      | none => none
      | some (.error _) => some (.error .templateError)
      | some (.ok (expr, st2)) =>
        insertLoop fuel { stmt1 with templates := stmt1.templates ++ [expr] } prev st2
    else if t = .NUMBER then
      let stmt1 := { stmt with templateString := stmt.templateString ++ ['%', 'v'] }
      match ParseTimestamp (punscan st1) with
      | .error _ => some (.error .timeError)
      | .ok (ts, st2) => some (.ok ({ stmt1 with timestamp := some ts }, st2))
    else if t ≠ .IDENT ∧ t ≠ .COMMA then
      some (.error (.foundExpected lit "IDENT or COMMA"))
    else
      insertLoop fuel { stmt with templateString := stmt.templateString ++ lit } t st1

/-- `ParseInsertStatement`: keyword, name, a mandatory raw whitespace
token, then the field-list loop. -/
def ParseInsertStatement (fuel : Nat) (st : PState) :
    Option (Except PError (InsertStatement × PState)) :=
  let (t1, l1, st1) := scanIW st
  if t1 ≠ .INSERT then some (.error (.foundExpected l1 "INSERT"))
  else
    let (t2, l2, st2) := scanIW st1
    if t2 ≠ .IDENT then some (.error (.foundExpected l2 "IDENT"))
    else
      let (t3, l3, st3) := pscan st2
      if t3 ≠ .WS then some (.error (.foundExpected l3 "WS"))
      else insertLoop fuel { name := l2 } .ILLEGAL st3

/-- The body loop of `ParseQueryStatement`: template variables become
`%v` and are recorded in `args`; `DO NUMBER` ends the statement; a
single-newline whitespace token is skipped; every other token's lexeme —
including the empty EOF lexeme, which makes the Go loop spin forever —
is appended verbatim. -/
def queryLoop : Nat → QueryStatement → PState →
    Option (Except PError (QueryStatement × PState))
  | 0, _, _ => none
  | fuel + 1, stmt, st =>
    let (t, lit, st1) := pscan st
    if t = .TEMPLATEVAR then
      queryLoop fuel { stmt with templateString := stmt.templateString ++ ['%', 'v'],
                                 args := stmt.args ++ [lit] } st1
    else if t = .DO then
      let (t2, l2, st2) := scanIW st1
      if t2 ≠ .NUMBER then some (.error (.foundExpected l2 "NUMBER"))
      else some (.ok ({ stmt with count := l2 }, st2))
    else if t = .WS ∧ lit = ['\n'] then queryLoop fuel stmt st1
    else queryLoop fuel { stmt with templateString := stmt.templateString ++ lit } st1

/-- `ParseQueryStatement`: keyword, a name IDENT that is checked but
never stored (`stmt.Name` is left at its zero value), then the body. -/
def ParseQueryStatement (fuel : Nat) (st : PState) :
    Option (Except PError (QueryStatement × PState)) :=
  let (t1, l1, st1) := scanIW st
  if t1 ≠ .QUERY then some (.error (.foundExpected l1 "QUERY"))
  else
    let (t2, l2, st2) := scanIW st1
    if t2 ≠ .IDENT then some (.error (.foundExpected l2 "IDENT"))
    else queryLoop fuel {} st2

/-- `ParseExecStatement`. -/
def ParseExecStatement (st : PState) : Except PError (ExecStatement × PState) :=
  let (t1, l1, st1) := scanIW st
  if t1 ≠ .EXEC then .error (.foundExpected l1 "EXEC")
  else
    let (t2, l2, st2) := scanIW st1
    if t2 ≠ .IDENT then .error (.foundExpected l2 "IDENT")
    else .ok ({ script := l2 }, st2)

/-- `ParseSetStatement`. -/
def ParseSetStatement (st : PState) : Except PError (SetStatement × PState) :=
  let (t1, l1, st1) := scanIW st
  if t1 ≠ .SET then .error (.foundExpected l1 "SET")
  else
    let (t2, l2, st2) := scanIW st1
    if t2 ≠ .IDENT then .error (.foundExpected l2 "IDENT")
    else
      let (t3, l3, st3) := scanIW st2
      if t3 ≠ .IDENT ∧ t3 ≠ .NUMBER ∧ t3 ≠ .DURATIONVAL then
        .error (.foundExpected l3 "IDENT or NUMBER or DURATION")
      else .ok ({ var := l2, value := l3 }, st3)

/-- `ParseWaitStatement`. -/
def ParseWaitStatement (st : PState) : Except PError (PState) :=
  let (t1, l1, st1) := scanIW st
  if t1 ≠ .WAIT then .error (.foundExpected l1 "WAIT")
  else .ok st1

/-- `ParseGoStatement`: after `GO`, only `QUERY`/`INSERT`/`EXEC` start an
inner parse; any other token leaves the inner statement nil with no
error.  A sub-parse error is rewrapped (`found %q`). -/
def ParseGoStatement (fuel : Nat) (st : PState) :
    Option (Except PError (Option Stmt × PState)) :=
  let (t1, l1, st1) := scanIW st
  if t1 ≠ .GO then some (.error (.foundExpected l1 "GO"))
  else
    let (t2, _, st2) := scanIW st1
    if t2 = .QUERY then
      match ParseQueryStatement fuel (punscan st2) with
      | none => none
      | some (.error e) => some (.error (.goWrap e))
      | some (.ok (q, st3)) => some (.ok (some (.query q), st3))
    else if t2 = .INSERT then
      match ParseInsertStatement fuel (punscan st2) with
      | none => none
      | some (.error e) => some (.error (.goWrap e))
      | some (.ok (i, st3)) => some (.ok (some (.insert i), st3))
    else if t2 = .EXEC then
      match ParseExecStatement (punscan st2) with
      | .error e => some (.error (.goWrap e))
      | .ok (e, st3) => some (.ok (some (.exec e), st3))
    else some (.ok (none, st2))

/-- `Parser.Parse`: dispatch on the first non-whitespace token. -/
def Parse (fuel : Nat) (st : PState) : Option (Except PError (Stmt × PState)) :=
  let (t, lit, st1) := scanIW st
  if t = .QUERY then
    match ParseQueryStatement fuel (punscan st1) with
    | none => none
    | some (.error e) => some (.error e)
    | some (.ok (q, st2)) => some (.ok (.query q, st2))
  else if t = .INSERT then
    match ParseInsertStatement fuel (punscan st1) with
    | none => none
    | some (.error e) => some (.error e)
    | some (.ok (i, st2)) => some (.ok (.insert i, st2))
  else if t = .EXEC then
    match ParseExecStatement (punscan st1) with
    | .error e => some (.error e)
    | .ok (e, st2) => some (.ok (.exec e, st2))
  else if t = .SET then
    match ParseSetStatement (punscan st1) with
    | .error e => some (.error e)
    | .ok (s, st2) => some (.ok (.set s, st2))
  else if t = .GO then
    match ParseGoStatement fuel (punscan st1) with
    | none => none
    | some (.error e) => some (.error e)
    | some (.ok (inner, st2)) => some (.ok (.go inner, st2))
  else if t = .WAIT then
    match ParseWaitStatement (punscan st1) with
    | .error e => some (.error e)
    | .ok st2 => some (.ok (.wait, st2))
  else some (.error (.unknownToken lit))

/-! ## Chunk splitter (`src/main.go`) -/

/-- Chunk kinds of `main.go`. -/
inductive CTok where
  | ILLEGAL
  | EOF
  | STATEMENT
  | BREAK
  deriving DecidableEq, Repr

/-- `var eof = rune(0)` in `main.go`. -/
def eofRune0 : Char := Char.ofNat 0

/-- `isNewline` of `main.go`. -/
def isNewline (c : Char) : Bool := c = '\n'

/-- Loop body of `scanStatements`: the eof sentinel ends the run
(consumed, dropped); a newline whose following character is also a
newline ends the run, the first newline dropped and the second left in
the input; any other character — including a single newline — is
retained. -/
def stmtRun : List Char → List Char × List Char
  | [] => ([], [])
  | c :: rest =>
    if c = eofRune0 then ([], rest)
    else if isNewline c ∧ isNewline (rest.headD eofRune0) then ([], rest)
    else
      let (a, r) := stmtRun rest
      (c :: a, r)

/-- `scanStatements`: the first character is written unconditionally,
then the run loop. -/
def scanStatements : List Char → List Char × List Char
  | [] => ([], [])
  | c :: rest =>
    let (a, r) := stmtRun rest
    (c :: a, r)

/-- Loop body of `scanNewlines`: a run of newline characters; the eof
sentinel is consumed, a non-newline pushed back. -/
def nlRun : List Char → List Char × List Char
  | [] => ([], [])
  | c :: rest =>
    if c = eofRune0 then ([], rest)
    else if ¬ isNewline c then ([], c :: rest)
    else
      let (a, r) := nlRun rest
      (c :: a, r)

/-- One call of the chunk splitter's `Scan` (`main.go`). -/
def chunkScan : List Char → CTok × List Char × List Char
  | [] => (.EOF, [], [])
  | c :: rest =>
    if isNewline c then
      let (a, r) := nlRun rest
      (.BREAK, c :: a, r)
    else if c = eofRune0 then (.EOF, [], rest)
    else
      let (a, r) := stmtRun rest
      (.STATEMENT, c :: a, r)

/-- Repeated chunk scans until `EOF`, with fuel. -/
def chunksOfF : Nat → List Char → List (CTok × List Char)
  | 0, _ => []
  | fuel + 1, l =>
    let (t, lit, r) := chunkScan l
    if t = .EOF then [] else (t, lit) :: chunksOfF fuel r

/-- The chunk sequence of a script (`length + 1` scans always reach
`EOF` because every non-`EOF` scan consumes at least one character). -/
def chunksOf (l : List Char) : List (CTok × List Char) :=
  chunksOfF (l.length + 1) l

/-! ## Statement classifier (`ParseCommands` of `main.go`)

The external query-language check (`influxql.ParseStatement`) is an
out-of-scope collaborator and is passed in as a predicate `v`: `v lit =
true` models acceptance.  It is consulted first for every chunk,
`BREAK` chunks included, exactly as in the source. -/

/-- The DSL parse of one chunk with the canonical ample fuel. -/
def ParseChunk (l : List Char) : Option (Except PError Stmt) :=
  match Parse (l.length + 2) (initState l) with
  | none => none
  | some (.error e) => some (.error e)
  | some (.ok (s, _)) => some (.ok s)

/-- The chunk loop of `ParseCommands`, over the chunk sequence. -/
def pcLoop (v : List Char → Bool) : List (CTok × List Char) →
    Option (Except PError (List Stmt))
  | [] => some (.ok [])
  | (t, lit) :: rest =>
    if v lit then
      match pcLoop v rest with
      | some (.ok l) => some (.ok (.influxql lit :: l))
      | x => x
    else if t = .BREAK then pcLoop v rest
    else
      match ParseChunk lit with
      | none => none
      | some (.error e) => some (.error e)
      | some (.ok s) =>
        match pcLoop v rest with
        | some (.ok l) => some (.ok (s :: l))
        | x => x

/-- `ParseCommands`: split the script into chunks and classify each in
order; a failed DSL parse aborts with that error, a diverging one
(`none`) never returns. -/
def ParseCommands (v : List Char → Bool) (input : List Char) :
    Option (Except PError (List Stmt)) :=
  pcLoop v (chunksOf input)

/-! ## Measures and well-formedness predicates used by the claims -/

/-- Auxiliary for `countPV`: 1 when the character `c` followed by the
head of `rest` forms the placeholder `%v`. -/
def pairPV (c : Char) (rest : List Char) : Nat :=
  match rest with
  | v :: _ => if c = '%' ∧ v = 'v' then 1 else 0
  | [] => 0

/-- Number of occurrences of the placeholder `"%v"` in a text (counted
at every position; occurrences cannot overlap since `'%' ≠ 'v'`). -/
def countPV : List Char → Nat
  | [] => 0
  | c :: rest => pairPV c rest + countPV rest

/-- The text does not end with a `'%'` character. -/
def noTrailPct (l : List Char) : Prop := l.getLast? ≠ some '%'

/-- A token kind/lexeme pair as produced by the scanner: every kind but
`TEMPLATEVAR` has a `'%'`-free lexeme. -/
def LitOK (t : Tok) (lit : List Char) : Prop := t ≠ .TEMPLATEVAR → '%' ∉ lit

/-- Well-formed parser states: a buffered token was actually produced by
the scanner, so its lexeme satisfies `LitOK`.  Freshly initialized
parsers (no buffered token) are well-formed. -/
def StOK (st : PState) : Prop :=
  st.buffered = true → LitOK st.lastTok st.lastLit

/-- The keyword kinds of the tokenizer. -/
def isKw : Tok → Bool
  | .SET | .USE | .QUERY | .INSERT | .GO | .DO | .WAIT | .EXEC
  | .STR | .INT | .FLOAT => true
  | _ => false

/-- Whether a text contains two consecutive newline characters. -/
def hasDD : List Char → Bool
  | [] => false
  | [_] => false
  | c :: d :: rest => (c = '\n' && d = '\n') || hasDD (d :: rest)

/-! ## Helper lemmas: `countPV` -/

theorem countPV_eq_zero {a : List Char} (h : '%' ∉ a) : countPV a = 0 := by
  induction a with
  | nil => rfl
  | cons x xs ih =>
    have hx : x ≠ '%' := fun hx => h (hx ▸ List.mem_cons_self x xs)
    have hxs : '%' ∉ xs := fun hm => h (List.mem_cons_of_mem x hm)
    have hp : pairPV x xs = 0 := by
      cases xs with
      | nil => rfl
      | cons y ys => simp [pairPV, hx]
    simp [countPV, hp, ih hxs]

theorem countPV_append {a : List Char} (b : List Char) (h : noTrailPct a) :
    countPV (a ++ b) = countPV a + countPV b := by
  induction a with
  | nil => simp [countPV]
  | cons x xs ih =>
    cases xs with
    | nil =>
      have hx : x ≠ '%' := by
        intro hx
        exact h (by simp [List.getLast?, hx])
      have hp : ∀ m : List Char, pairPV x m = 0 := by
        intro m
        cases m with
        | nil => rfl
        | cons y ys => simp [pairPV, hx]
      simp [countPV, hp]
    | cons y ys =>
      have hxs : noTrailPct (y :: ys) := by
        intro hc
        exact h (by rw [List.getLast?_cons_cons]; exact hc)
      have hpair : pairPV x ((y :: ys) ++ b) = pairPV x (y :: ys) := by
        simp [pairPV]
      have hc1 : countPV ((x :: y :: ys) ++ b) =
          pairPV x ((y :: ys) ++ b) + countPV ((y :: ys) ++ b) := rfl
      have hc2 : countPV (x :: y :: ys) = pairPV x (y :: ys) + countPV (y :: ys) := rfl
      rw [hc1, hc2, hpair, ih hxs]
      omega

theorem noTrailPct_append {a : List Char} (lit : List Char) (h1 : noTrailPct a)
    (h2 : '%' ∉ lit) : noTrailPct (a ++ lit) := by
  cases hl : lit with
  | nil => simpa using h1
  | cons y ys =>
    intro hc
    rw [List.getLast?_append_of_ne_nil _ (by simp [hl])] at hc
    subst hl
    rcases List.mem_getLast?_eq_getLast (by rw [hc]; exact rfl) with ⟨hne, heq⟩
    exact h2 (heq ▸ List.getLast_mem hne)

theorem noTrailPct_space (a : List Char) : noTrailPct (a ++ [' ']) := by
  intro hc
  rw [List.getLast?_concat] at hc
  simp at hc

theorem noTrailPct_pv (a : List Char) : noTrailPct (a ++ ['%', 'v']) := by
  intro hc
  have : a ++ ['%', 'v'] = (a ++ ['%']) ++ ['v'] := by simp
  rw [this, List.getLast?_concat] at hc
  simp at hc

theorem countPV_append_pv {a : List Char} (h : noTrailPct a) :
    countPV (a ++ ['%', 'v']) = countPV a + 1 := by
  rw [countPV_append _ h]
  rfl

theorem countPV_append_nopct {a : List Char} (lit : List Char) (h : noTrailPct a)
    (h2 : '%' ∉ lit) : countPV (a ++ lit) = countPV a := by
  rw [countPV_append _ h, countPV_eq_zero h2]
  omega

theorem noTrailPct_nil : noTrailPct ([] : List Char) := by
  intro h
  simp [List.getLast?] at h

/-! ## Helper lemmas: scanner loops -/

theorem wsLoop_spec (l : List Char) :
    (wsLoop l).1 <+: l ∧ (wsLoop l).2 <:+ l ∧
      ∀ c ∈ (wsLoop l).1, isWhitespace c = true := by
  induction l with
  | nil => exact ⟨List.prefix_refl _, List.suffix_refl _, by simp [wsLoop]⟩
  | cons x xs ih =>
    rcases hw : wsLoop xs with ⟨a, r⟩
    rw [hw] at ih
    simp only [wsLoop, hw]
    split_ifs with h1 h2
    · exact ⟨by simp, List.suffix_cons x xs, by simp⟩
    · refine ⟨List.cons_prefix_cons.mpr ⟨rfl, ih.1⟩,
        ih.2.1.trans (List.suffix_cons x xs), ?_⟩
      intro c hc
      rcases List.mem_cons.mp hc with rfl | hc
      · exact h2
      · exact ih.2.2 c hc
    · exact ⟨by simp, List.suffix_refl _, by simp⟩

theorem identLoop_spec (l : List Char) :
    (identLoop l).1 <+: l ∧ (identLoop l).2 <:+ l ∧
      ∀ c ∈ (identLoop l).1, isIdentChar c = true := by
  induction l with
  | nil => exact ⟨List.prefix_refl _, List.suffix_refl _, by simp [identLoop]⟩
  | cons x xs ih =>
    rcases hw : identLoop xs with ⟨a, r⟩
    rw [hw] at ih
    simp only [identLoop, hw]
    split_ifs with h1 h2
    · exact ⟨by simp, List.suffix_cons x xs, by simp⟩
    · refine ⟨List.cons_prefix_cons.mpr ⟨rfl, ih.1⟩,
        ih.2.1.trans (List.suffix_cons x xs), ?_⟩
      intro c hc
      rcases List.mem_cons.mp hc with rfl | hc
      · exact h2
      · exact ih.2.2 c hc
    · exact ⟨by simp, List.suffix_refl _, by simp⟩

theorem numLoop_spec (l : List Char) :
    (numLoop l).1 <+: l ∧ (numLoop l).2.1 <:+ l ∧
      ∀ c ∈ (numLoop l).1, isDigit c = true ∨ c = 'n' ∨ c = 's' ∨ c = 'm' := by
  induction l with
  | nil => exact ⟨List.prefix_refl _, List.suffix_refl _, by simp [numLoop]⟩
  | cons x xs ih =>
    rcases hw : numLoop xs with ⟨a, r, d⟩
    rw [hw] at ih
    simp only [numLoop, hw]
    split_ifs with h1 h2 h3
    · exact ⟨by simp, List.suffix_cons x xs, by simp⟩
    · refine ⟨by simp, List.suffix_cons x xs, ?_⟩
      intro c hc
      rcases List.mem_cons.mp hc with rfl | hc
      · right
        simpa using h2
      · simp at hc
    · refine ⟨List.cons_prefix_cons.mpr ⟨rfl, ih.1⟩,
        ih.2.1.trans (List.suffix_cons x xs), ?_⟩
      intro c hc
      rcases List.mem_cons.mp hc with rfl | hc
      · exact Or.inl h3
      · exact ih.2.2 c hc
    · exact ⟨by simp, List.suffix_refl _, by simp⟩

theorem keywordOf_isKw {u : List Char} {t : Tok} (h : keywordOf u = some t) :
    isKw t = true := by
  unfold keywordOf at h
  split_ifs at h <;>
    first
    | exact Option.noConfusion h
    | (injection h with h2; rw [← h2]; rfl)

theorem keywordOf_quote {u : List Char} (h : u.head? = some '"') : keywordOf u = none := by
  unfold keywordOf
  split_ifs <;> simp_all

theorem identFinish_eq_of_none {lit : List Char}
    (h : keywordOf (lit.map Char.toUpper) = none) : identFinish lit = .IDENT := by
  simp [identFinish, h]

theorem identFinish_eq_of_some {lit : List Char} {t : Tok}
    (h : keywordOf (lit.map Char.toUpper) = some t) : identFinish lit = t := by
  simp [identFinish, h]

theorem identFinish_kw (lit : List Char) :
    identFinish lit = .IDENT ∨ isKw (identFinish lit) = true := by
  cases h : keywordOf (lit.map Char.toUpper) with
  | none => exact Or.inl (identFinish_eq_of_none h)
  | some t => exact Or.inr ((identFinish_eq_of_some h) ▸ keywordOf_isKw h)

theorem identFinish_ne (lit : List Char) :
    identFinish lit ≠ .TEMPLATEVAR ∧ identFinish lit ≠ .STRING ∧
      identFinish lit ≠ .BADSTRING ∧ identFinish lit ≠ .EOF := by
  rcases identFinish_kw lit with h | h
  · rw [h]
    exact ⟨by decide, by decide, by decide, by decide⟩
  · refine ⟨?_, ?_, ?_, ?_⟩ <;> intro he <;> rw [he] at h <;> simp [isKw] at h

theorem identFinish_isKw {lit : List Char} (h : isKw (identFinish lit) = true) :
    keywordOf (lit.map Char.toUpper) = some (identFinish lit) := by
  cases hk : keywordOf (lit.map Char.toUpper) with
  | none => rw [identFinish_eq_of_none hk] at h; simp [isKw] at h
  | some t => rw [identFinish_eq_of_some hk]

theorem identFinish_ident {lit : List Char} (h : identFinish lit = .IDENT) :
    keywordOf (lit.map Char.toUpper) = none := by
  cases hk : keywordOf (lit.map Char.toUpper) with
  | none => rfl
  | some t =>
    rw [identFinish_eq_of_some hk] at h
    subst h
    have := keywordOf_isKw hk
    simp [isKw] at this

/-- Combined behaviour of one `Scan` call: the remainder is a suffix of
the input; every lexeme except a template variable's is a `'%'`-free
prefix of the input; a template-variable lexeme is a prefix of the input
unless the `'%'` was the last input character, in which case the eof
sentinel `rune(1)` was stored; keyword kinds arise exactly from the
uppercased-copy table lookup while `IDENT` means no keyword matched; the
quoted-string kinds are never produced; any non-`EOF` scan consumes at
least one character. -/
theorem scanStep_spec (l : List Char) :
    (scanStep l).2.2 <:+ l ∧
      ((scanStep l).1 ≠ .TEMPLATEVAR → (scanStep l).2.1 <+: l ∧ '%' ∉ (scanStep l).2.1) ∧
      ((scanStep l).1 = .TEMPLATEVAR →
        (scanStep l).2.1 <+: l ∨ (scanStep l).2.1 = ['%', eofRune1]) ∧
      (isKw (scanStep l).1 = true →
        keywordOf ((scanStep l).2.1.map Char.toUpper) = some (scanStep l).1) ∧
      ((scanStep l).1 = .IDENT → keywordOf ((scanStep l).2.1.map Char.toUpper) = none) ∧
      (scanStep l).1 ≠ .STRING ∧ (scanStep l).1 ≠ .BADSTRING ∧
      ((scanStep l).1 ≠ .EOF → (scanStep l).2.2.length < l.length) := by
  cases l with
  | nil => simp [scanStep, isKw]
  | cons c rest =>
    by_cases hws : isWhitespace c = true
    · rcases hw : wsLoop rest with ⟨a, r⟩
      obtain ⟨hp, hs, hm⟩ := wsLoop_spec rest
      rw [hw] at hp hs hm
      dsimp only at hp hs hm
      have hstep : scanStep (c :: rest) = (.WS, c :: a, r) := by
        simp [scanStep, hws, hw]
      rw [hstep]
      refine ⟨hs.trans (List.suffix_cons c rest), ?_,
        fun h => Tok.noConfusion h, fun h => Bool.noConfusion h,
        fun h => Tok.noConfusion h, fun h => Tok.noConfusion h,
        fun h => Tok.noConfusion h, ?_⟩
      · intro _
        refine ⟨List.cons_prefix_cons.mpr ⟨rfl, hp⟩, ?_⟩
        intro hmem
        rcases List.mem_cons.mp hmem with he | he
        · rw [← he] at hws
          simp [isWhitespace] at hws
        · have := hm _ he
          simp [isWhitespace] at this
      · intro _
        have := hs.length_le
        simp only [List.length_cons]
        omega
    · by_cases hlet : isLetter c = true
      · rcases hw : identLoop rest with ⟨a, r⟩
        obtain ⟨hp, hs, hm⟩ := identLoop_spec rest
        rw [hw] at hp hs hm
        dsimp only at hp hs hm
        have hstep : scanStep (c :: rest) = (identFinish (c :: a), c :: a, r) := by
          simp [scanStep, hws, hlet, hw]
        obtain ⟨hn1, hn2, hn3, hn4⟩ := identFinish_ne (c :: a)
        rw [hstep]
        refine ⟨hs.trans (List.suffix_cons c rest), ?_, fun h => absurd h hn1,
          fun h => identFinish_isKw h, fun h => identFinish_ident h, hn2, hn3, ?_⟩
        · intro _
          refine ⟨List.cons_prefix_cons.mpr ⟨rfl, hp⟩, ?_⟩
          intro hmem
          rcases List.mem_cons.mp hmem with he | he
          · rw [← he] at hlet
            simp [isLetter] at hlet
          · have := hm _ he
            simp [isIdentChar, isLetter, isDigit] at this
        · intro _
          have := hs.length_le
          simp only [List.length_cons]
          omega
      · by_cases hdig : isDigit c = true
        · rcases hw : numLoop rest with ⟨a, r, d⟩
          obtain ⟨hp, hs, hm⟩ := numLoop_spec rest
          rw [hw] at hp hs hm
          dsimp only at hp hs hm
          have hpct : '%' ∉ c :: a := by
            intro hmem
            rcases List.mem_cons.mp hmem with he | he
            · rw [← he] at hdig
              simp [isDigit] at hdig
            · rcases hm _ he with hd | hd | hd | hd <;> simp_all [isDigit]
          have hlen : (c :: rest).length = rest.length + 1 := by simp
          cases d with
          | false =>
            have hstep : scanStep (c :: rest) = (.NUMBER, c :: a, r) := by
              simp [scanStep, hws, hlet, hdig, hw]
            rw [hstep]
            refine ⟨hs.trans (List.suffix_cons c rest),
              fun _ => ⟨List.cons_prefix_cons.mpr ⟨rfl, hp⟩, hpct⟩,
              fun h => Tok.noConfusion h, fun h => Bool.noConfusion h,
              fun h => Tok.noConfusion h, fun h => Tok.noConfusion h,
              fun h => Tok.noConfusion h, ?_⟩
            intro _
            have := hs.length_le
            simp only [List.length_cons]
            omega
          | true =>
            have hstep : scanStep (c :: rest) = (.DURATIONVAL, c :: a, r) := by
              simp [scanStep, hws, hlet, hdig, hw]
            rw [hstep]
            refine ⟨hs.trans (List.suffix_cons c rest),
              fun _ => ⟨List.cons_prefix_cons.mpr ⟨rfl, hp⟩, hpct⟩,
              fun h => Tok.noConfusion h, fun h => Bool.noConfusion h,
              fun h => Tok.noConfusion h, fun h => Tok.noConfusion h,
              fun h => Tok.noConfusion h, ?_⟩
            intro _
            have := hs.length_le
            simp only [List.length_cons]
            omega
        · by_cases heof : c = eofRune1
          · subst heof
            have hstep : scanStep (eofRune1 :: rest) = (.EOF, [], rest) := by
              simp [scanStep, hws, hlet, hdig]
            rw [hstep]
            exact ⟨List.suffix_cons eofRune1 rest, fun _ => ⟨by simp, by simp⟩,
              fun h => Tok.noConfusion h, fun h => Bool.noConfusion h,
              fun h => Tok.noConfusion h, fun h => Tok.noConfusion h,
              fun h => Tok.noConfusion h, fun h => absurd rfl h⟩
          · by_cases hq : c = '"'
            · subst hq
              rcases hw : identLoop rest with ⟨a, r⟩
              obtain ⟨hp, hs, hm⟩ := identLoop_spec rest
              rw [hw] at hp hs hm
              dsimp only at hp hs hm
              have hstep : scanStep ('"' :: rest) = (identFinish ('"' :: a), '"' :: a, r) := by
                simp [scanStep, hws, hlet, hdig, heof, hw]
              obtain ⟨hn1, hn2, hn3, hn4⟩ := identFinish_ne ('"' :: a)
              rw [hstep]
              refine ⟨hs.trans (List.suffix_cons '"' rest), ?_, fun h => absurd h hn1,
                fun h => identFinish_isKw h, fun h => identFinish_ident h, hn2, hn3, ?_⟩
              · intro _
                refine ⟨List.cons_prefix_cons.mpr ⟨rfl, hp⟩, ?_⟩
                intro hmem
                rcases List.mem_cons.mp hmem with he | he
                · exact absurd he.symm (by decide)
                · have := hm _ he
                  simp [isIdentChar, isLetter, isDigit] at this
              · intro _
                have := hs.length_le
                simp only [List.length_cons]
                omega
            · by_cases hpc : c = '%'
              · subst hpc
                cases rest with
                | nil =>
                  have hstep : scanStep ['%'] = (.TEMPLATEVAR, ['%', eofRune1], []) := by
                    simp [scanStep, hws, hlet, hdig, heof]
                  rw [hstep]
                  exact ⟨by simp, fun h => absurd rfl h, fun _ => Or.inr rfl,
                    fun h => Bool.noConfusion h, fun h => Tok.noConfusion h,
                    fun h => Tok.noConfusion h, fun h => Tok.noConfusion h,
                    fun _ => by simp⟩
                | cons d r =>
                  have hstep : scanStep ('%' :: d :: r) = (.TEMPLATEVAR, ['%', d], r) := by
                    simp [scanStep, hws, hlet, hdig, heof]
                  rw [hstep]
                  exact ⟨(List.suffix_cons d r).trans (List.suffix_cons '%' (d :: r)),
                    fun h => absurd rfl h, fun _ => Or.inl ⟨r, rfl⟩,
                    fun h => Bool.noConfusion h, fun h => Tok.noConfusion h,
                    fun h => Tok.noConfusion h, fun h => Tok.noConfusion h,
                    fun _ => by simp only [List.length_cons]; omega⟩
              · have hone : ∀ t : Tok, scanStep (c :: rest) = (t, [c], rest) →
                    t ≠ .TEMPLATEVAR → isKw t = false → t ≠ .IDENT → t ≠ .STRING →
                    t ≠ .BADSTRING → t ≠ .EOF →
                    (scanStep (c :: rest)).2.2 <:+ c :: rest ∧
                      ((scanStep (c :: rest)).1 ≠ .TEMPLATEVAR →
                        (scanStep (c :: rest)).2.1 <+: c :: rest ∧
                          '%' ∉ (scanStep (c :: rest)).2.1) ∧
                      ((scanStep (c :: rest)).1 = .TEMPLATEVAR →
                        (scanStep (c :: rest)).2.1 <+: c :: rest ∨
                          (scanStep (c :: rest)).2.1 = ['%', eofRune1]) ∧
                      (isKw (scanStep (c :: rest)).1 = true →
                        keywordOf ((scanStep (c :: rest)).2.1.map Char.toUpper) =
                          some (scanStep (c :: rest)).1) ∧
                      ((scanStep (c :: rest)).1 = .IDENT →
                        keywordOf ((scanStep (c :: rest)).2.1.map Char.toUpper) = none) ∧
                      (scanStep (c :: rest)).1 ≠ .STRING ∧
                      (scanStep (c :: rest)).1 ≠ .BADSTRING ∧
                      ((scanStep (c :: rest)).1 ≠ .EOF →
                        (scanStep (c :: rest)).2.2.length < (c :: rest).length) := by
                  intro t hstep h1 h2 h3 h4 h5 h6
                  rw [hstep]
                  refine ⟨List.suffix_cons c rest,
                    fun _ => ⟨by simp, fun hm => hpc (List.mem_singleton.mp hm ▸ rfl)⟩,
                    fun h => absurd h h1, fun h => by rw [h2] at h; exact Bool.noConfusion h,
                    fun h => absurd h h3, h4, h5, fun _ => by simp⟩
                by_cases hco : c = ','
                · subst hco
                  exact hone .COMMA (by simp [scanStep, hws, hlet, hdig, heof, hq, hpc])
                    (by decide) rfl (by decide) (by decide) (by decide) (by decide)
                · by_cases hdo : c = '.'
                  · subst hdo
                    exact hone .PERIOD
                      (by simp [scanStep, hws, hlet, hdig, heof, hq, hpc, hco])
                      (by decide) rfl (by decide) (by decide) (by decide) (by decide)
                  · by_cases hlp : c = '('
                    · subst hlp
                      exact hone .LPAREN
                        (by simp [scanStep, hws, hlet, hdig, heof, hq, hpc, hco, hdo])
                        (by decide) rfl (by decide) (by decide) (by decide) (by decide)
                    · by_cases hrp : c = ')'
                      · subst hrp
                        exact hone .RPAREN
                          (by simp [scanStep, hws, hlet, hdig, heof, hq, hpc, hco, hdo, hlp])
                          (by decide) rfl (by decide) (by decide) (by decide) (by decide)
                      · by_cases hlb : c = '['
                        · subst hlb
                          exact hone .LBRACKET
                            (by simp [scanStep, hws, hlet, hdig, heof, hq, hpc, hco, hdo, hlp,
                              hrp])
                            (by decide) rfl (by decide) (by decide) (by decide) (by decide)
                        · by_cases hrb : c = ']'
                          · subst hrb
                            exact hone .RBRACKET
                              (by simp [scanStep, hws, hlet, hdig, heof, hq, hpc, hco, hdo, hlp,
                                hrp, hlb])
                              (by decide) rfl (by decide) (by decide) (by decide) (by decide)
                          · by_cases hpipe : c = '|'
                            · subst hpipe
                              exact hone .PIPE
                                (by simp [scanStep, hws, hlet, hdig, heof, hq, hpc, hco, hdo,
                                  hlp, hrp, hlb, hrb])
                                (by decide) rfl (by decide) (by decide) (by decide) (by decide)
                            · exact hone .ILLEGAL
                                (by simp [scanStep, hws, hlet, hdig, heof, hq, hpc, hco, hdo,
                                  hlp, hrp, hlb, hrb, hpipe])
                                (by decide) rfl (by decide) (by decide) (by decide) (by decide)

/-- Every token of the stream inherits the per-scan facts, with lexeme
prefixes of suffixes becoming infixes of the whole chunk text. -/
theorem tokenizeF_mem {fuel : Nat} {l : List Char} {p : Tok × List Char}
    (h : p ∈ tokenizeF fuel l) :
    (p.1 ≠ .TEMPLATEVAR → p.2 <:+: l ∧ '%' ∉ p.2) ∧
      (p.1 = .TEMPLATEVAR → p.2 <:+: l ∨ p.2 = ['%', eofRune1]) ∧
      (isKw p.1 = true → keywordOf (p.2.map Char.toUpper) = some p.1) ∧
      (p.1 = .IDENT → keywordOf (p.2.map Char.toUpper) = none) ∧
      p.1 ≠ .STRING ∧ p.1 ≠ .BADSTRING := by
  induction fuel generalizing l with
  | zero => simp [tokenizeF] at h
  | succ n ih =>
    obtain ⟨hsuf, h2, h3, h4, h5, h6, h7, _⟩ := scanStep_spec l
    rcases hs : scanStep l with ⟨t, lit, r⟩
    rw [hs] at hsuf h2 h3 h4 h5 h6 h7
    dsimp only at hsuf h2 h3 h4 h5 h6 h7
    rw [tokenizeF, hs] at h
    dsimp only at h
    by_cases ht : t = .EOF
    · rw [if_pos ht] at h
      simp at h
    · rw [if_neg ht] at h
      rcases List.mem_cons.mp h with rfl | hmem
      · exact ⟨fun hnt => ⟨(h2 hnt).1.isInfix, (h2 hnt).2⟩,
          fun he => (h3 he).imp List.IsPrefix.isInfix id, h4, h5, h6, h7⟩
      · obtain ⟨g1, g2, g3, g4, g5, g6⟩ := ih hmem
        exact ⟨fun hnt => ⟨(g1 hnt).1.trans hsuf.isInfix, (g1 hnt).2⟩,
          fun he => (g2 he).imp (fun hi => hi.trans hsuf.isInfix) id, g3, g4, g5, g6⟩

/-- A scan starting at a double quote runs the identifier rule: the
token is an `IDENT` whose lexeme starts with the quote and contains no
further quote. -/
theorem scanStep_quote {l : List Char} (h : l.head? = some '"') :
    (scanStep l).1 = .IDENT ∧ (scanStep l).2.1.head? = some '"' ∧
      '"' ∉ (scanStep l).2.1.tail := by
  cases l with
  | nil => simp at h
  | cons c rest =>
    have hc : c = '"' := by simpa using h
    subst hc
    rcases hw : identLoop rest with ⟨a, r⟩
    obtain ⟨hp, hs, hm⟩ := identLoop_spec rest
    rw [hw] at hm
    dsimp only at hm
    have hws : isWhitespace '"' = false := by decide
    have hlet : isLetter '"' = false := by decide
    have hdig : isDigit '"' = false := by decide
    have heof : ('"' : Char) ≠ eofRune1 := by decide
    have hstep : scanStep ('"' :: rest) = (identFinish ('"' :: a), '"' :: a, r) := by
      simp [scanStep, hws, hlet, hdig, heof, hw]
    rw [hstep]
    refine ⟨?_, rfl, ?_⟩
    · show identFinish ('"' :: a) = Tok.IDENT
      apply identFinish_eq_of_none
      apply keywordOf_quote
      have : Char.toUpper '"' = '"' := by decide
      simp [this]
    · intro hmem
      have := hm _ hmem
      exact absurd this (by decide)

/-! ## Helper lemmas: parser state -/

theorem StOK_of_buffered_false {st : PState} (h : st.buffered = false) : StOK st := by
  intro hb
  rw [h] at hb
  exact Bool.noConfusion hb

theorem pscan_buffered (st : PState) : ((pscan st).2.2).buffered = false := by
  by_cases hb : st.buffered
  · simp [pscan, hb]
  · rcases hs : scanStep st.rest with ⟨t, lit, r⟩
    simp [pscan, hb, hs]

theorem pscan_last (st : PState) :
    ((pscan st).2.2).lastTok = (pscan st).1 ∧ ((pscan st).2.2).lastLit = (pscan st).2.1 := by
  by_cases hb : st.buffered
  · simp [pscan, hb]
  · rcases hs : scanStep st.rest with ⟨t, lit, r⟩
    simp [pscan, hb, hs]

theorem pscan_litOK {st : PState} (h : StOK st) :
    LitOK (pscan st).1 (pscan st).2.1 := by
  by_cases hb : st.buffered
  · have := h hb
    simpa [pscan, hb] using this
  · rcases hs : scanStep st.rest with ⟨t, lit, r⟩
    obtain ⟨_, h2, _⟩ := scanStep_spec st.rest
    rw [hs] at h2
    dsimp only at h2
    simp only [pscan, hb, Bool.false_eq_true, if_false, hs]
    exact fun hnt => (h2 hnt).2

theorem scanIW_buffered (st : PState) : ((scanIW st).2.2).buffered = false := by
  rcases hp : pscan st with ⟨t, lit, st'⟩
  by_cases ht : t = .WS
  · simp only [scanIW, hp, ht, if_pos]
    exact pscan_buffered st'
  · simp only [scanIW, hp, if_neg ht]
    have := pscan_buffered st
    rw [hp] at this
    exact this

theorem scanIW_last (st : PState) :
    ((scanIW st).2.2).lastTok = (scanIW st).1 ∧
      ((scanIW st).2.2).lastLit = (scanIW st).2.1 := by
  rcases hp : pscan st with ⟨t, lit, st'⟩
  by_cases ht : t = .WS
  · simp only [scanIW, hp, ht, if_pos]
    exact pscan_last st'
  · simp only [scanIW, hp, if_neg ht]
    have := pscan_last st
    rw [hp] at this
    exact this

theorem scanIW_litOK {st : PState} (h : StOK st) :
    LitOK (scanIW st).1 (scanIW st).2.1 := by
  rcases hp : pscan st with ⟨t, lit, st'⟩
  by_cases ht : t = .WS
  · have hb : st'.buffered = false := by
      have := pscan_buffered st
      rw [hp] at this
      exact this
    simp only [scanIW, hp, ht, if_pos]
    exact pscan_litOK (StOK_of_buffered_false hb)
  · simp only [scanIW, hp, if_neg ht]
    have := pscan_litOK h
    rw [hp] at this
    exact this

theorem StOK_scanIW (st : PState) : StOK ((scanIW st).2.2) :=
  StOK_of_buffered_false (scanIW_buffered st)

theorem StOK_pscan (st : PState) : StOK ((pscan st).2.2) :=
  StOK_of_buffered_false (pscan_buffered st)

/-- Pushing the token just returned by `scanIgnoreWhitespace` back into
the buffer keeps the state well-formed. -/
theorem StOK_punscan_scanIW {st : PState} (h : StOK st) :
    StOK (punscan ((scanIW st).2.2)) := by
  intro _
  have hl := scanIW_last st
  show LitOK ((scanIW st).2.2).lastTok ((scanIW st).2.2).lastLit
  rw [hl.1, hl.2]
  exact scanIW_litOK h

/-! ## Helper lemmas: the QUERY body loop -/

/-- Invariant of the QUERY body loop: every template variable adds one
`%v` and one argument, every other appended lexeme is `'%'`-free. -/
theorem queryLoop_inv {fuel : Nat} :
    ∀ {stmt : QueryStatement} {st : PState} {out : QueryStatement × PState},
    StOK st → countPV stmt.templateString = stmt.args.length →
    noTrailPct stmt.templateString →
    queryLoop fuel stmt st = some (.ok out) →
    countPV out.1.templateString = out.1.args.length := by
  induction fuel with
  | zero =>
    intro stmt st out _ _ _ h
    simp [queryLoop] at h
  | succ n ih =>
    intro stmt st out hstok hinv htrail h
    rcases hp : pscan st with ⟨t, lit, st1⟩
    have hlit : LitOK t lit := by
      have := pscan_litOK hstok
      rw [hp] at this
      exact this
    have hst1 : StOK st1 := by
      have := StOK_pscan st
      rw [hp] at this
      exact this
    simp only [queryLoop] at h
    rw [hp] at h
    dsimp only at h
    rcases hq : scanIW st1 with ⟨t2, l2, st2⟩
    rw [hq] at h
    dsimp only at h
    split_ifs at h with h1 h2 h3 h4
    · refine ih hst1 ?_ (noTrailPct_pv _) h
      rw [countPV_append_pv htrail, hinv]
      simp
    · simp at h
    · simp only [Option.some.injEq, Except.ok.injEq] at h
      subst h
      simpa using hinv
    · exact ih hst1 hinv htrail h
    · refine ih hst1 ?_ (noTrailPct_append lit htrail (hlit h1)) h
      rw [countPV_append_nopct lit htrail (hlit h1), hinv]

/-- `ParseQueryStatement` produces a statement with as many `%v`
placeholders as recorded arguments. -/
theorem ParseQueryStatement_inv {fuel : Nat} {st : PState}
    {stmt : QueryStatement} {st' : PState}
    (h : ParseQueryStatement fuel st = some (.ok (stmt, st'))) :
    countPV stmt.templateString = stmt.args.length := by
  unfold ParseQueryStatement at h
  rcases h1 : scanIW st with ⟨t1, l1, s1⟩
  rw [h1] at h
  dsimp only at h
  rcases h2 : scanIW s1 with ⟨t2, l2, s2⟩
  rw [h2] at h
  dsimp only at h
  split_ifs at h with hq hi
  · simp at h
  · simp at h
  · have hs2 : StOK s2 := by
      have := StOK_scanIW s1
      rw [h2] at this
      exact this
    have := queryLoop_inv hs2 (by rfl) noTrailPct_nil h
    simpa using this

/-! ## Helper lemmas: the INSERT field-list loop -/

theorem ParseFunction_state {st : PState} {fn : Function} {st' : PState}
    (h : ParseFunction st = .ok (fn, st')) : st'.buffered = false := by
  unfold ParseFunction at h
  rcases e1 : scanIW st with ⟨t1, l1, s1⟩
  rw [e1] at h
  dsimp only at h
  rcases e2 : scanIW s1 with ⟨t2, l2, s2⟩
  rw [e2] at h
  dsimp only at h
  rcases e3 : scanIW s2 with ⟨t3, l3, s3⟩
  rw [e3] at h
  dsimp only at h
  rcases e4 : scanIW s3 with ⟨t4, l4, s4⟩
  rw [e4] at h
  dsimp only at h
  rcases e5 : scanIW s4 with ⟨t5, l5, s5⟩
  rw [e5] at h
  dsimp only at h
  rcases e6 : scanIW s5 with ⟨t6, l6, s6⟩
  rw [e6] at h
  dsimp only at h
  split_ifs at h <;>
    first
      | exact Except.noConfusion h
      | (simp only [Except.ok.injEq, Prod.mk.injEq] at h
         obtain ⟨hfn, hst⟩ := h
         subst hst
         have := scanIW_buffered s5
         rw [e6] at this
         exact this)

theorem templateLoop_state {fuel : Nat} :
    ∀ {tm : Template} {st : PState} {out : Template × PState},
    templateLoop fuel tm st = some (.ok out) → out.2.buffered = false := by
  induction fuel with
  | zero =>
    intro tm st out h
    simp [templateLoop] at h
  | succ n ih =>
    intro tm st out h
    simp only [templateLoop] at h
    rcases e1 : scanIW st with ⟨t, lit, st1⟩
    rw [e1] at h
    dsimp only at h
    split_ifs at h with h1 h2 h3
    · exact ih h
    · rcases e2 : ParseFunction (punscan st1) with he | ⟨fn, st2⟩
      · rw [e2] at h
        simp at h
      · rw [e2] at h
        dsimp only at h
        exact ih h
    · simp only [Option.some.injEq, Except.ok.injEq] at h
      subst h
      have := scanIW_buffered st
      rw [e1] at this
      exact this
    · exact ih h

/-- Invariant of the INSERT field-list loop: `[` contributes one `%v`
and one template, the closing timestamp contributes the final `%v`, and
every other appended piece is `'%'`-free. -/
theorem insertLoop_inv {fuel : Nat} :
    ∀ {stmt : InsertStatement} {prev : Tok} {st : PState}
      {out : InsertStatement × PState},
    StOK st → countPV stmt.templateString = stmt.templates.length →
    noTrailPct stmt.templateString →
    insertLoop fuel stmt prev st = some (.ok out) →
    countPV out.1.templateString = out.1.templates.length + 1 := by
  induction fuel with
  | zero =>
    intro stmt prev st out _ _ _ h
    simp [insertLoop] at h
  | succ n ih =>
    intro stmt prev st out hstok hinv htrail h
    rcases hp : pscan st with ⟨t, lit, st1⟩
    have hlit : LitOK t lit := by
      have := pscan_litOK hstok
      rw [hp] at this
      exact this
    have hst1 : StOK st1 := by
      have := StOK_pscan st
      rw [hp] at this
      exact this
    simp only [insertLoop] at h
    rw [hp] at h
    dsimp only at h
    split_ifs at h with h1 h2 h3 h4 h5
    · exact ih hst1 hinv htrail h
    · refine ih hst1 ?_ (noTrailPct_space _) h
      rw [countPV_append_nopct [' '] htrail (by decide), hinv]
    · rcases e2 : ParseTemplate n st1 with _ | he | ⟨expr, st2⟩
      · rw [e2] at h
        simp at h
      · rw [e2] at h
        simp at h
      · rw [e2] at h
        dsimp only at h
        have hst2 : StOK st2 := by
          have := templateLoop_state e2
          exact StOK_of_buffered_false this
        refine ih hst2 ?_ (noTrailPct_pv _) h
        rw [countPV_append_pv htrail]
        simp [hinv]
    · rcases e2 : ParseTimestamp (punscan st1) with he | ⟨ts, st2⟩
      · rw [e2] at h
        simp at h
      · rw [e2] at h
        dsimp only at h
        simp only [Option.some.injEq, Except.ok.injEq] at h
        subst h
        have hgoal : countPV (stmt.templateString ++ ['%', 'v']) =
            stmt.templates.length + 1 := by
          rw [countPV_append_pv htrail, hinv]
        simpa using hgoal
    · simp at h
    · have hIC : t = .IDENT ∨ t = .COMMA := by
        by_contra hc
        push_neg at hc
        exact h5 ⟨hc.1, hc.2⟩
      have ht : t ≠ .TEMPLATEVAR := by
        rcases hIC with hh | hh <;> subst hh <;> exact fun he => Tok.noConfusion he
      refine ih hst1 ?_ (noTrailPct_append lit htrail (hlit ht)) h
      rw [countPV_append_nopct lit htrail (hlit ht), hinv]

/-- `ParseInsertStatement` produces a statement whose `%v` count is the
template count plus one (for the trailing timestamp). -/
theorem ParseInsertStatement_inv {fuel : Nat} {st : PState}
    {stmt : InsertStatement} {st' : PState}
    (h : ParseInsertStatement fuel st = some (.ok (stmt, st'))) :
    countPV stmt.templateString = stmt.templates.length + 1 := by
  unfold ParseInsertStatement at h
  rcases e1 : scanIW st with ⟨t1, l1, s1⟩
  rw [e1] at h
  dsimp only at h
  rcases e2 : scanIW s1 with ⟨t2, l2, s2⟩
  rw [e2] at h
  dsimp only at h
  rcases e3 : pscan s2 with ⟨t3, l3, s3⟩
  rw [e3] at h
  dsimp only at h
  split_ifs at h with hq hi hw
  · simp at h
  · simp at h
  · simp at h
  · have hs3 : StOK s3 := by
      have := StOK_pscan s2
      rw [e3] at this
      exact this
    have := insertLoop_inv hs3 (by rfl) noTrailPct_nil h
    simpa using this

/-! ## Helper lemmas: chunk splitter and classifier -/

theorem newline_ne_eofRune0 : ('\n' : Char) ≠ eofRune0 := by decide

theorem isNewline_eofRune0 : isNewline eofRune0 = false := by decide

/-- One-step unfolding of the statement-run loop. -/
theorem stmtRun_cons (c : Char) (rest : List Char) :
    stmtRun (c :: rest) =
      if c = eofRune0 then ([], rest)
      else if isNewline c = true ∧ isNewline (rest.headD eofRune0) = true then ([], rest)
      else ((c :: (stmtRun rest).1), (stmtRun rest).2) := rfl

/-- The statement-run loop at end of input: with no sentinel character
and no double newline inside, the loop consumes the whole text —
embedded and trailing single newlines included. -/
theorem stmtRun_eof : ∀ (a : List Char), eofRune0 ∉ a →
    hasDD a = false → stmtRun a = (a, []) := by
  intro a
  induction a with
  | nil =>
    intro _ _
    rfl
  | cons x xs ih =>
    intro hnul hdd
    have hx : x ≠ eofRune0 := fun he => hnul (he ▸ List.mem_cons_self x xs)
    have hnul' : eofRune0 ∉ xs := fun hm => hnul (List.mem_cons_of_mem x hm)
    cases xs with
    | nil =>
      have hcond1 : ¬ (isNewline x = true ∧
          isNewline (([] : List Char).headD eofRune0) = true) := by
        intro hc
        rw [List.headD_nil, isNewline_eofRune0] at hc
        exact Bool.noConfusion hc.2
      show stmtRun [x] = ([x], [])
      rw [stmtRun_cons, if_neg hx, if_neg hcond1]
      rfl
    | cons y ys =>
      have hnoxy : (isNewline x = true ∧ isNewline y = true) → False := by
        intro ⟨hx1, hy1⟩
        have hxt : x = '\n' := by simpa [isNewline] using hx1
        have hyt : y = '\n' := by simpa [isNewline] using hy1
        subst hxt
        subst hyt
        simp [hasDD] at hdd
      have hdd' : hasDD (y :: ys) = false := by
        simp only [hasDD, Bool.or_eq_false_iff] at hdd
        exact hdd.2
      have hcond : ¬ (isNewline x = true ∧
          isNewline ((y :: ys).headD eofRune0) = true) := by
        rw [List.headD_cons]
        exact hnoxy
      show stmtRun (x :: y :: ys) = (x :: y :: ys, [])
      rw [stmtRun_cons, if_neg hx, if_neg hcond, ih hnul' hdd']

/-- The statement-run loop at a blank line: with no sentinel character
and no double newline before the boundary (nor a newline right before
it), the loop stops exactly at the double newline, dropping the first
newline and leaving the second in the input. -/
theorem stmtRun_dd : ∀ (a : List Char), eofRune0 ∉ a →
    hasDD (a ++ ['\n']) = false →
    ∀ r, stmtRun (a ++ '\n' :: '\n' :: r) = (a, '\n' :: r) := by
  intro a
  induction a with
  | nil =>
    intro _ _ r
    show stmtRun ('\n' :: '\n' :: r) = ([], '\n' :: r)
    rw [stmtRun_cons, if_neg newline_ne_eofRune0,
      if_pos ⟨by decide, by rw [List.headD_cons]; decide⟩]
  | cons x xs ih =>
    intro hnul hdd
    have hx : x ≠ eofRune0 := fun he => hnul (he ▸ List.mem_cons_self x xs)
    have hnul' : eofRune0 ∉ xs := fun hm => hnul (List.mem_cons_of_mem x hm)
    cases xs with
    | nil =>
      have hxn : isNewline x = false := by
        by_contra hcon
        have hxt : x = '\n' := by
          simpa [isNewline] using hcon
        subst hxt
        simp [hasDD] at hdd
      intro r
      have hinner : stmtRun ('\n' :: '\n' :: r) = ([], '\n' :: r) := by
        rw [stmtRun_cons, if_neg newline_ne_eofRune0,
          if_pos ⟨by decide, by rw [List.headD_cons]; decide⟩]
      have hcond2 : ¬ (isNewline x = true ∧
          isNewline (('\n' :: '\n' :: r).headD eofRune0) = true) := by
        intro hc
        rw [hxn] at hc
        exact Bool.noConfusion hc.1
      show stmtRun (x :: '\n' :: '\n' :: r) = ([x], '\n' :: r)
      rw [stmtRun_cons, if_neg hx, if_neg hcond2, hinner]
    | cons y ys =>
      have hdd2 : hasDD (x :: y :: (ys ++ ['\n'])) = false := by
        simpa using hdd
      have hnoxy : (isNewline x = true ∧ isNewline y = true) → False := by
        intro ⟨hx1, hy1⟩
        have hxt : x = '\n' := by simpa [isNewline] using hx1
        have hyt : y = '\n' := by simpa [isNewline] using hy1
        subst hxt
        subst hyt
        simp [hasDD] at hdd2
      have hdd' : hasDD ((y :: ys) ++ ['\n']) = false := by
        simp only [hasDD, Bool.or_eq_false_iff] at hdd2
        simpa using hdd2.2
      intro r
      have hg2 : stmtRun (y :: (ys ++ '\n' :: '\n' :: r)) = (y :: ys, '\n' :: r) := by
        have := ih hnul' hdd' r
        simpa using this
      have hcond : ¬ (isNewline x = true ∧
          isNewline ((y :: (ys ++ '\n' :: '\n' :: r)).headD eofRune0) = true) := by
        rw [List.headD_cons]
        exact hnoxy
      show stmtRun (x :: (y :: (ys ++ '\n' :: '\n' :: r))) = (x :: y :: ys, '\n' :: r)
      rw [stmtRun_cons, if_neg hx, if_neg hcond, hg2]

/-- The classifier loop never yields a statement list when some
statement chunk is rejected by the validator and fails the DSL parse:
it surfaces an error or, when an earlier chunk makes the parser loop
forever, never returns. -/
theorem pcLoop_no_ok (v : List Char → Bool) :
    ∀ (chunks : List (CTok × List Char)),
    (∃ p ∈ chunks, p.1 = CTok.STATEMENT ∧ v p.2 = false ∧
      ∃ e, ParseChunk p.2 = some (.error e)) →
    ∀ l, pcLoop v chunks ≠ some (.ok l) := by
  intro chunks
  induction chunks with
  | nil =>
    intro h
    simp at h
  | cons q rest ih =>
    intro hex l hok
    rcases q with ⟨t, lit⟩
    rcases hex with ⟨p, hp, hprops⟩
    rcases List.mem_cons.mp hp with rfl | hmem
    · obtain ⟨hst, hv, e, he⟩ := hprops
      dsimp only at hst hv he
      subst hst
      simp only [pcLoop] at hok
      rw [if_neg (by simp [hv])] at hok
      rw [if_neg (by decide : ¬ (CTok.STATEMENT = CTok.BREAK))] at hok
      rw [he] at hok
      simp at hok
    · have hex' : ∃ p ∈ rest, p.1 = CTok.STATEMENT ∧ v p.2 = false ∧
          ∃ e, ParseChunk p.2 = some (.error e) := ⟨p, hmem, hprops⟩
      simp only [pcLoop] at hok
      by_cases hv : v lit = true
      · rw [if_pos hv] at hok
        rcases hrest : pcLoop v rest with _ | (he2 | l2)
        · rw [hrest] at hok
          exact Option.noConfusion hok
        · rw [hrest] at hok
          simp at hok
        · exact ih hex' l2 hrest
      · rw [if_neg hv] at hok
        by_cases hb : t = CTok.BREAK
        · rw [if_pos hb] at hok
          exact ih hex' l hok
        · rw [if_neg hb] at hok
          rcases hpc : ParseChunk lit with _ | (he2 | s)
          · rw [hpc] at hok
            exact Option.noConfusion hok
          · rw [hpc] at hok
            simp at hok
          · rw [hpc] at hok
            dsimp only at hok
            rcases hrest : pcLoop v rest with _ | (he3 | l3)
            · rw [hrest] at hok
              exact Option.noConfusion hok
            · rw [hrest] at hok
              simp at hok
            · exact ih hex' l3 hrest

/-! ## Claim theorems -/

/-- Claim C1 (code-bug evidence): parsing the chunk
`QUERY q1 select * from cpu where host=%s DO 100` as a DSL statement
succeeds with args exactly `["%s"]`, count `"100"` and exactly one `%v`
in the template string, but the statement's `name` field is left at its
empty zero value: `ParseQueryStatement` checks the name IDENT `q1` and
never stores it, so the claimed `name = "q1"` fails on the code. -/
theorem claim_C1 :
    ParseChunk ("QUERY q1 select * from cpu where host=%s DO 100".toList) =
      some (.ok (Stmt.query
        { name := [],
          templateString := " select * from cpu where host=%v ".toList,
          args := ["%s".toList], count := "100".toList })) ∧
      countPV (" select * from cpu where host=%v ".toList) = 1 := by
  exact ⟨by rfl, by rfl⟩

/-- Claim C2 (counterexample): parsing the chunk
`INSERT cpu,host=serverA 10s` fails — after the name `cpu` the parser
demands a raw whitespace token but finds the comma. -/
theorem claim_C2_counterexample :
    ParseChunk ("INSERT cpu,host=serverA 10s".toList) =
      some (.error (.foundExpected [','] "WS")) := by
  rfl

/-- Claim C2 (amended): the parser requires whitespace after the
measurement name and a two-token `NUMBER DURATION` timestamp, so the
nearby chunk `INSERT cpu ,host=serverA 10 10s` succeeds and yields an
InsertStatement with name `cpu`, a template string containing
`,host=serverA` followed by a trailing `%v`, and a timestamp with count
`10` and a duration lexeme carrying the duration suffix. -/
theorem claim_C2 :
    ParseChunk ("INSERT cpu ,host=serverA 10 10s".toList) =
      some (.ok (Stmt.insert
        { name := "cpu".toList,
          templateString := ",host=serverA %v".toList, templates := [],
          timestamp := some { count := "10".toList, duration := "10s".toList,
                              jitter := false } })) ∧
      (",host=serverA".toList <+: ",host=serverA %v".toList) ∧
      ("%v".toList <:+ ",host=serverA %v".toList) ∧
      "10s".toList.getLast? = some 's' := by
  exact ⟨by rfl, by decide, by decide, by rfl⟩

/-- Claim C3 (counterexample): a `%` as the last input character yields
a template-variable token whose lexeme contains the eof sentinel
`rune(1)` and therefore is not a substring of the input. -/
theorem claim_C3_counterexample :
    tokenize ['%'] = [(Tok.TEMPLATEVAR, ['%', eofRune1])] ∧
      ¬ (['%', eofRune1] <:+: ['%']) := by
  exact ⟨by rfl, by decide⟩

/-- Claim C3 (amended): every token's lexeme is an exact contiguous
substring of the input, except a template variable whose `%` is the
last input character, whose lexeme is the `%` plus the eof sentinel
`rune(1)`; keyword classification matches an uppercased copy of the
lexeme against the table while the stored lexeme keeps the input's
original case (`IDENT` meaning no keyword matched). -/
theorem claim_C3 (l : List Char) (p : Tok × List Char) (hmem : p ∈ tokenize l) :
    (p.1 ≠ .TEMPLATEVAR → p.2 <:+: l) ∧
      (p.1 = .TEMPLATEVAR → p.2 <:+: l ∨ p.2 = ['%', eofRune1]) ∧
      (isKw p.1 = true → keywordOf (p.2.map Char.toUpper) = some p.1) ∧
      (p.1 = .IDENT → keywordOf (p.2.map Char.toUpper) = none) := by
  obtain ⟨g1, g2, g3, g4, _, _⟩ := tokenizeF_mem hmem
  exact ⟨fun h => (g1 h).1, g2, g3, g4⟩

/-- Witness for C3 at the input `do 5` and its keyword token `do`. -/
theorem claim_C3_witness :
    ((Tok.DO, "do".toList).1 ≠ .TEMPLATEVAR → "do".toList <:+: "do 5".toList) ∧
      ((Tok.DO, "do".toList).1 = .TEMPLATEVAR →
        "do".toList <:+: "do 5".toList ∨ "do".toList = ['%', eofRune1]) ∧
      (isKw (Tok.DO, "do".toList).1 = true →
        keywordOf ("do".toList.map Char.toUpper) = some (Tok.DO, "do".toList).1) ∧
      ((Tok.DO, "do".toList).1 = .IDENT →
        keywordOf ("do".toList.map Char.toUpper) = none) :=
  claim_C3 ("do 5".toList) (Tok.DO, "do".toList) (by decide)

/-- Claim C4 (counterexample): in the script
`QUERY q x\n\nINSERT c\n\n` the chunk `INSERT c` is a statement chunk,
is rejected by the (here all-rejecting) external validator and fails
the DSL grammar, yet `ParseCommands` returns no error at all: the
earlier chunk `QUERY q x` has no `DO`, on which the QUERY body loop of
the parser never terminates (`none` is the divergence marker). -/
theorem claim_C4_counterexample :
    ((CTok.STATEMENT, "INSERT c".toList) ∈
        chunksOf ("QUERY q x\n\nINSERT c\n\n".toList)) ∧
      ParseChunk ("INSERT c".toList) = some (.error (.foundExpected [] "WS")) ∧
      ParseCommands (fun _ => false) ("QUERY q x\n\nINSERT c\n\n".toList) = none := by
  exact ⟨by decide, by rfl, by rfl⟩

/-- Claim C4 (amended): if some statement chunk of the script is
rejected by the external validator and fails the DSL grammar, then
`ParseCommands` never yields a statement sequence, partial or complete:
it either terminates with an error or — when an earlier chunk makes the
DSL parser loop forever — never returns. -/
theorem claim_C4 (v : List Char → Bool) (input : List Char)
    (h : ∃ p ∈ chunksOf input, p.1 = CTok.STATEMENT ∧ v p.2 = false ∧
      ∃ e, ParseChunk p.2 = some (.error e)) :
    ∀ l, ParseCommands v input ≠ some (.ok l) :=
  pcLoop_no_ok v (chunksOf input) h

/-- Witness for C4 at the script `SET\n\n` with an all-rejecting
validator: the lone statement chunk fails the DSL grammar and the
classification yields no statement list. -/
theorem claim_C4_witness :
    (∃ p ∈ chunksOf ("SET\n\n".toList), p.1 = CTok.STATEMENT ∧
      (fun _ : List Char => false) p.2 = false ∧
      ∃ e, ParseChunk p.2 = some (.error e)) ∧
      ParseCommands (fun _ => false) ("SET\n\n".toList) ≠ some (.ok []) := by
  have hex : ∃ p ∈ chunksOf ("SET\n\n".toList), p.1 = CTok.STATEMENT ∧
      (fun _ : List Char => false) p.2 = false ∧
      ∃ e, ParseChunk p.2 = some (.error e) :=
    ⟨(CTok.STATEMENT, "SET".toList), by decide, rfl, rfl,
      ⟨.foundExpected [] "IDENT", by rfl⟩⟩
  exact ⟨hex, claim_C4 (fun _ => false) ("SET\n\n".toList) hex []⟩

/-- Claim C5: every `InsertStatement` successfully returned by
`ParseInsertStatement` (from any well-formed parser state) that has a
timestamp present carries exactly `len(templates) + 1` occurrences of
`%v` in its template string. -/
theorem claim_C5 (fuel : Nat) (st : PState) (stmt : InsertStatement) (st' : PState)
    (h : ParseInsertStatement fuel st = some (.ok (stmt, st')))
    (hts : stmt.timestamp.isSome = true) :
    countPV stmt.templateString = stmt.templates.length + 1 :=
  ParseInsertStatement_inv h

/-- Witness for C5 at the chunk `INSERT m f 1 2s`. -/
theorem claim_C5_witness :
    countPV (InsertStatement.templateString
        { name := ['m'],
          templateString := "f %v".toList, templates := [],
          timestamp := some { count := ['1'], duration := "2s".toList,
                              jitter := false } }) =
      (InsertStatement.templates
        { name := ['m'],
          templateString := "f %v".toList, templates := [],
          timestamp := some { count := ['1'], duration := "2s".toList,
                              jitter := false } }).length + 1 :=
  claim_C5 40 (initState "INSERT m f 1 2s".toList)
    { name := ['m'], templateString := "f %v".toList, templates := [],
      timestamp := some { count := ['1'], duration := "2s".toList, jitter := false } }
    { rest := [], lastTok := .DURATIONVAL, lastLit := "2s".toList, buffered := false }
    (by rfl) (by rfl)

/-- Claim C6: every `QueryStatement` successfully returned by
`ParseQueryStatement` has as many recorded args as `%v` placeholders in
its template string. -/
theorem claim_C6 (fuel : Nat) (st : PState) (stmt : QueryStatement) (st' : PState)
    (h : ParseQueryStatement fuel st = some (.ok (stmt, st'))) :
    stmt.args.length = countPV stmt.templateString :=
  (ParseQueryStatement_inv h).symm

/-- Witness for C6 at the chunk `QUERY q %s DO 1`. -/
theorem claim_C6_witness :
    (QueryStatement.args
        { name := [], templateString := " %v ".toList,
          args := ["%s".toList], count := ['1'] }).length =
      countPV (QueryStatement.templateString
        { name := [],
          templateString := " %v ".toList, args := ["%s".toList],
          count := ['1'] }) :=
  claim_C6 40 (initState "QUERY q %s DO 1".toList)
    { name := [], templateString := " %v ".toList, args := ["%s".toList],
      count := ['1'] }
    { rest := [], lastTok := .NUMBER, lastLit := ['1'], buffered := false }
    (by rfl)

/-- Claim C7: a `GoStatement` successfully returned by
`ParseGoStatement` never wraps a `GO`, `SET` or `WAIT` statement: when
its inner statement is set, it is an `InsertStatement`, a
`QueryStatement` or an `ExecStatement`. -/
theorem claim_C7 (fuel : Nat) (st : PState) (inner : Option Stmt) (st' : PState)
    (h : ParseGoStatement fuel st = some (.ok (inner, st')))
    (s : Stmt) (hs : inner = some s) :
    ((∃ q, s = Stmt.query q) ∨ (∃ i, s = Stmt.insert i) ∨ (∃ e, s = Stmt.exec e)) ∧
      (∀ o, s ≠ Stmt.go o) ∧ (∀ t, s ≠ Stmt.set t) ∧ s ≠ Stmt.wait := by
  have hmain : (∃ q, s = Stmt.query q) ∨ (∃ i, s = Stmt.insert i) ∨
      (∃ e, s = Stmt.exec e) := by
    unfold ParseGoStatement at h
    rcases e1 : scanIW st with ⟨t1, l1, s1⟩
    rw [e1] at h
    dsimp only at h
    rcases e2 : scanIW s1 with ⟨t2, l2, s2⟩
    rw [e2] at h
    dsimp only at h
    split_ifs at h with hg hq hi he
    · simp at h
    · rcases e3 : ParseQueryStatement fuel (punscan s2) with _ | (her | ⟨qq, s3⟩)
      · rw [e3] at h
        exact Option.noConfusion h
      · rw [e3] at h
        simp at h
      · rw [e3] at h
        dsimp only at h
        simp only [Option.some.injEq, Except.ok.injEq, Prod.mk.injEq] at h
        rw [← h.1] at hs
        simp only [Option.some.injEq] at hs
        exact Or.inl ⟨qq, hs.symm⟩
    · rcases e3 : ParseInsertStatement fuel (punscan s2) with _ | (her | ⟨ii, s3⟩)
      · rw [e3] at h
        exact Option.noConfusion h
      · rw [e3] at h
        simp at h
      · rw [e3] at h
        dsimp only at h
        simp only [Option.some.injEq, Except.ok.injEq, Prod.mk.injEq] at h
        rw [← h.1] at hs
        simp only [Option.some.injEq] at hs
        exact Or.inr (Or.inl ⟨ii, hs.symm⟩)
    · rcases e3 : ParseExecStatement (punscan s2) with her | ⟨ee, s3⟩
      · rw [e3] at h
        simp at h
      · rw [e3] at h
        dsimp only at h
        simp only [Option.some.injEq, Except.ok.injEq, Prod.mk.injEq] at h
        rw [← h.1] at hs
        simp only [Option.some.injEq] at hs
        exact Or.inr (Or.inr ⟨ee, hs.symm⟩)
    · simp only [Option.some.injEq, Except.ok.injEq, Prod.mk.injEq] at h
      rw [← h.1] at hs
      exact Option.noConfusion hs
  refine ⟨hmain, ?_, ?_, ?_⟩
  · intro o he
    rcases hmain with ⟨q, hh⟩ | ⟨i, hh⟩ | ⟨e, hh⟩ <;> rw [hh] at he <;>
      exact Stmt.noConfusion he
  · intro t he
    rcases hmain with ⟨q, hh⟩ | ⟨i, hh⟩ | ⟨e, hh⟩ <;> rw [hh] at he <;>
      exact Stmt.noConfusion he
  · intro he
    rcases hmain with ⟨q, hh⟩ | ⟨i, hh⟩ | ⟨e, hh⟩ <;> rw [hh] at he <;>
      exact Stmt.noConfusion he

/-- Witness for C7 at the chunk `GO EXEC loadscript`. -/
theorem claim_C7_witness :
    ((∃ q, Stmt.exec { script := "loadscript".toList, args := [] } = Stmt.query q) ∨
      (∃ i, Stmt.exec { script := "loadscript".toList, args := [] } = Stmt.insert i) ∨
      (∃ e, Stmt.exec { script := "loadscript".toList, args := [] } = Stmt.exec e)) ∧
      (∀ o, Stmt.exec { script := "loadscript".toList, args := [] } ≠ Stmt.go o) ∧
      (∀ t, Stmt.exec { script := "loadscript".toList, args := [] } ≠ Stmt.set t) ∧
      Stmt.exec { script := "loadscript".toList, args := [] } ≠ Stmt.wait :=
  claim_C7 40 (initState "GO EXEC loadscript".toList)
    (some (Stmt.exec { script := "loadscript".toList, args := [] }))
    { rest := [], lastTok := .IDENT, lastLit := "loadscript".toList,
      buffered := false }
    (by rfl) (Stmt.exec { script := "loadscript".toList, args := [] }) rfl

/-- Claim C8: when the first token is `GO` and the following token is
none of `QUERY`, `INSERT`, `EXEC`, `ParseGoStatement` succeeds with no
inner statement and no error. -/
theorem claim_C8 (fuel : Nat) (st : PState) (l1 : List Char) (s1 : PState)
    (t2 : Tok) (l2 : List Char) (s2 : PState)
    (h1 : scanIW st = (.GO, l1, s1)) (h2 : scanIW s1 = (t2, l2, s2))
    (hq : t2 ≠ .QUERY) (hi : t2 ≠ .INSERT) (he : t2 ≠ .EXEC) :
    ParseGoStatement fuel st = some (.ok (none, s2)) := by
  unfold ParseGoStatement
  rw [h1]
  dsimp only
  rw [h2]
  dsimp only
  rw [if_neg (fun hne => hne rfl), if_neg hq, if_neg hi, if_neg he]

/-- Witness for C8 at the chunk `GO WAIT now`. -/
theorem claim_C8_witness :
    ParseGoStatement 40 (initState "GO WAIT now".toList) =
      some (.ok (none,
        { rest := " now".toList, lastTok := .WAIT,
          lastLit := "WAIT".toList, buffered := false })) :=
  claim_C8 40 (initState "GO WAIT now".toList) "GO".toList
    { rest := " WAIT now".toList, lastTok := .GO, lastLit := "GO".toList,
      buffered := false }
    Tok.WAIT "WAIT".toList
    { rest := " now".toList, lastTok := .WAIT, lastLit := "WAIT".toList,
      buffered := false }
    (by rfl) (by rfl) (by decide) (by decide) (by decide)

/-- Claim C9 (counterexample): a literal U+0000 in the script — the
same character as the chunk splitter's `read()` eof sentinel
`rune(0)` — ends a statement run mid-input: in `A<NUL>B` the run stops
after `A`, the NUL is consumed and dropped, and `B` is left in the
input, although no two consecutive newlines were seen and the input
has not ended. -/
theorem claim_C9_counterexample :
    scanStatements ('A' :: eofRune0 :: ['B']) = (['A'], ['B']) ∧
      eofRune0 ≠ '\n' ∧ (['B'] : List Char) ≠ [] := by
  exact ⟨by rfl, by decide, by decide⟩

/-- Claim C9 (amended): a statement run of the chunk splitter ends at
two consecutive newlines, at the end of input, or at a literal U+0000
(the splitter's eof sentinel, consumed and dropped mid-input).  For
run text free of the NUL character: at end of input the whole text is
the chunk, embedded and trailing single newlines retained; at a
double-newline boundary the chunk excludes both newlines and the
second newline stays in the input for the following break run. -/
theorem claim_C9 (a : List Char) (c : Char) (r : List Char)
    (h1 : eofRune0 ∉ a) :
    (hasDD a = false → scanStatements (c :: a) = (c :: a, [])) ∧
      (hasDD (a ++ ['\n']) = false →
        scanStatements (c :: (a ++ '\n' :: '\n' :: r)) = (c :: a, '\n' :: r)) := by
  constructor
  · intro h2
    show (c :: (stmtRun a).1, (stmtRun a).2) = (c :: a, [])
    rw [stmtRun_eof a h1 h2]
  · intro h2
    show (c :: (stmtRun (a ++ '\n' :: '\n' :: r)).1,
        (stmtRun (a ++ '\n' :: '\n' :: r)).2) = (c :: a, '\n' :: r)
    rw [stmtRun_dd a h1 h2 r]

/-- Witness for C9: the run `SAB\ncd\n` (an embedded single newline
and a trailing one) is kept whole at end of input, and the run
`SAB\ncd` followed by a blank line and `EF` stops at the blank line. -/
theorem claim_C9_witness :
    scanStatements ("SAB\ncd\n".toList) = ("SAB\ncd\n".toList, []) ∧
      scanStatements ("SAB\ncd\n\nEF".toList) =
        ("SAB\ncd".toList, "\nEF".toList) :=
  ⟨(claim_C9 ("AB\ncd\n".toList) 'S' [] (by decide)).1 (by decide),
    (claim_C9 ("AB\ncd".toList) 'S' ("EF".toList) (by decide)).2 (by decide)⟩

/-- Claim C10: the tokenizer never emits a quoted-string or bad-string
token; a span beginning with a double quote is scanned by the
identifier rule, producing an `IDENT` whose lexeme begins with the
quote and contains no closing quote. -/
theorem claim_C10 (l : List Char) :
    (∀ p ∈ tokenize l, p.1 ≠ Tok.STRING ∧ p.1 ≠ Tok.BADSTRING) ∧
      (l.head? = some '"' → (scanStep l).1 = .IDENT ∧
        (scanStep l).2.1.head? = some '"' ∧ '"' ∉ (scanStep l).2.1.tail) := by
  constructor
  · intro p hp
    obtain ⟨_, _, _, _, g5, g6⟩ := tokenizeF_mem hp
    exact ⟨g5, g6⟩
  · exact scanStep_quote

/-- Witness for C10 at the input `"abc" x` and its first token. -/
theorem claim_C10_witness :
    ((Tok.IDENT, "\"abc".toList).1 ≠ Tok.STRING ∧
      (Tok.IDENT, "\"abc".toList).1 ≠ Tok.BADSTRING) ∧
      ((scanStep ("\"abc\" x".toList)).1 = .IDENT ∧
        (scanStep ("\"abc\" x".toList)).2.1.head? = some '"' ∧
        '"' ∉ (scanStep ("\"abc\" x".toList)).2.1.tail) :=
  ⟨(claim_C10 ("\"abc\" x".toList)).1 (Tok.IDENT, "\"abc".toList) (by decide),
    (claim_C10 ("\"abc\" x".toList)).2 (by rfl)⟩

end StressConfig
